import Mathlib

/-!
Shallow embedding of `src/brainfuck.py` (m0r13/pyBrainfuck).

The Python module provides a sparse tape (`BrainfuckStack`, a dict from
integer index to integer cell value), an interpreter
(`BrainfuckInterpreter`) with a cursor into the command list, lazily
scanned bracket matching, and a lowering backend `to_c`.

Modelling decisions:
- Python dicts become association lists `List (Int × Int)` with unique
  keys; assignment replaces the first binding with the key or appends.
- Streams become lists of characters: `stream_input : Option (List Char)`
  (None means no configured input stream, in which case `,` falls back to
  `Getch.getch()`, modelled as reading from `stdin`); the output stream is
  the list of characters written so far.
- Python 2 `chr(v)` raises `ValueError` unless `0 ≤ v < 256`; a raised
  exception is modelled as `none`, so `single_step` returns
  `Option BrainfuckInterpreter`.
-/

/-- Python dict read `d[index]` (without default insertion). -/
def dict_lookup : List (Int × Int) → Int → Option Int
  | [], _ => none
  | (k, w) :: rest, i => if k = i then some w else dict_lookup rest i

/-- Python dict assignment `d[index] = value`: replace the binding if the
key is present, otherwise append a new entry. -/
def dict_set : List (Int × Int) → Int → Int → List (Int × Int)
  | [], i, v => [(i, v)]
  | (k, w) :: rest, i, v =>
    if k = i then (i, v) :: rest else (k, w) :: dict_set rest i v

/-- `BrainfuckStack`: manages the Brainfuck cells for the interpreter. -/
structure BrainfuckStack where
  dict : List (Int × Int)
deriving DecidableEq, Repr

/-- Python `self._dict.has_key(index)`. -/
def BrainfuckStack.has_key (s : BrainfuckStack) (index : Int) : Bool :=
  (dict_lookup s.dict index).isSome

/-- `get_list`: returns a list of all cells (`self._dict.values()`). -/
def BrainfuckStack.get_list (s : BrainfuckStack) : List Int :=
  s.dict.map Prod.snd

/-- `__getitem__`: if the index is absent it is first materialized at 0;
returns the (possibly just inserted) cell value together with the updated
storage. -/
def BrainfuckStack.getitem (s : BrainfuckStack) (index : Int) :
    Int × BrainfuckStack :=
  if s.has_key index then ((dict_lookup s.dict index).getD 0, s)
  else (0, ⟨dict_set s.dict index 0⟩)

/-- `__setitem__`: stores a value at an index. -/
def BrainfuckStack.setitem (s : BrainfuckStack) (index value : Int) :
    BrainfuckStack :=
  ⟨dict_set s.dict index value⟩

/-- The interpreter state: tape, tape pointer, command list, cursor, the
optional input stream, the characters written to the output stream so far,
and the interactive terminal input used by `Getch.getch()` when no input
stream is configured. -/
structure BrainfuckInterpreter where
  stack : BrainfuckStack
  stack_position : Int
  commands : List Char
  commands_position : Nat
  stream_input : Option (List Char)
  stream_output : List Char
  stdin : List Char
deriving DecidableEq, Repr

/-- `BrainfuckInterpreter.__init__(commands)`. -/
def mkInterpreter (commands : String) : BrainfuckInterpreter :=
  { stack := ⟨[]⟩, stack_position := 0, commands := commands.toList,
    commands_position := 0, stream_input := none, stream_output := [],
    stdin := [] }

namespace BrainfuckInterpreter

/-- `_increment_pointer` (command `>`). -/
def increment_pointer (s : BrainfuckInterpreter) : BrainfuckInterpreter :=
  { s with stack_position := s.stack_position + 1 }

/-- `_decrement_pointer` (command `<`). -/
def decrement_pointer (s : BrainfuckInterpreter) : BrainfuckInterpreter :=
  { s with stack_position := s.stack_position - 1 }

/-- `_increment` (command `+`): `self._stack[self._stack_position] += 1`,
which reads through `__getitem__` (materializing the cell) and writes the
read value plus one back through `__setitem__`. -/
def increment (s : BrainfuckInterpreter) : BrainfuckInterpreter :=
  let r := s.stack.getitem s.stack_position
  { s with stack := r.2.setitem s.stack_position (r.1 + 1) }

/-- `_decrement` (command `-`). -/
def decrement (s : BrainfuckInterpreter) : BrainfuckInterpreter :=
  let r := s.stack.getitem s.stack_position
  { s with stack := r.2.setitem s.stack_position (r.1 - 1) }

/-- `_output` (command `.`): `self._stream_output.write(chr(cell))`.
Python 2 `chr` raises `ValueError` unless `0 ≤ cell < 256`; the raise is
`none`. -/
def output_op (s : BrainfuckInterpreter) : Option BrainfuckInterpreter :=
  let r := s.stack.getitem s.stack_position
  if 0 ≤ r.1 ∧ r.1 < 256 then
    some { s with stack := r.2,
                  stream_output := s.stream_output ++ [Char.ofNat r.1.toNat] }
  else none

/-- `_input` (command `,`): read one character from the input stream (or
from the terminal via `Getch.getch()` when none is configured); if exactly
one character was read the cell becomes its code point, otherwise 0. -/
def input_op (s : BrainfuckInterpreter) : BrainfuckInterpreter :=
  let byte := match s.stream_input with
    | none => s.stdin.take 1
    | some l => l.take 1
  let s1 := match s.stream_input with
    | none => { s with stdin := s.stdin.drop 1 }
    | some l => { s with stream_input := some (l.drop 1) }
  let value : Int := match byte with
    | [c] => (c.toNat : Int)
    | _ => 0
  { s1 with stack := s1.stack.setitem s1.stack_position value }

/-- The forward scan of `_loop_begin`:
`for i in range(pos + 1, len(commands))` with the `found` counter.
`fuel` is the number of indices remaining in the range, `i` the current
index. Returns the index whose `]` is accepted, if any. -/
def loop_begin_scan (commands : List Char) :
    Nat → Nat → Int → Option Nat
  | 0, _, _ => none
  | fuel + 1, i, found =>
    let command := commands.getD i ' '
    if command = ']' ∧ found = 0 then some i
    else if command = ']' then loop_begin_scan commands fuel (i + 1) (found + 1)
    else if command = '[' then loop_begin_scan commands fuel (i + 1) (found - 1)
    else loop_begin_scan commands fuel (i + 1) found

/-- `_loop_begin` (command `[`): jump past the matching `]` if the current
cell is 0; on a successful scan the cursor is set to the match index plus
one, otherwise it is left unchanged. -/
def loop_begin (s : BrainfuckInterpreter) : BrainfuckInterpreter :=
  let v := (s.stack.getitem s.stack_position).1
  let s1 := { s with stack := (s.stack.getitem s.stack_position).2 }
  if v ≠ 0 then s1
  else
    match loop_begin_scan s1.commands
        (s1.commands.length - (s1.commands_position + 1))
        (s1.commands_position + 1) 0 with
    | some i => { s1 with commands_position := i + 1 }
    | none => s1

/-- The backward scan of `_loop_end`:
`for i in range(pos - 1, 0, -1)` with the `found` counter. The first
argument of the recursion is the current index; index 0 stops the scan
without being inspected. -/
def loop_end_scan (commands : List Char) : Nat → Int → Option Nat
  | 0, _ => none
  | j + 1, found =>
    let command := commands.getD (j + 1) ' '
    if command = '[' ∧ found = 0 then some (j + 1)
    else if command = '[' then loop_end_scan commands j (found + 1)
    else if command = ']' then loop_end_scan commands j (found - 1)
    else loop_end_scan commands j found

/-- `_loop_end` (command `]`): jump back to the matching `[` if the current
cell is nonzero; on a successful scan the cursor is set to the match index
itself, otherwise it is left unchanged. -/
def loop_end (s : BrainfuckInterpreter) : BrainfuckInterpreter :=
  let v := (s.stack.getitem s.stack_position).1
  let s1 := { s with stack := (s.stack.getitem s.stack_position).2 }
  if v = 0 then s1
  else
    match loop_end_scan s1.commands (s1.commands_position - 1) 0 with
    | some i => { s1 with commands_position := i }
    | none => s1

/-- `is_end`: the run is finished when the cursor is at or past the end. -/
def is_end (s : BrainfuckInterpreter) : Bool :=
  s.commands.length ≤ s.commands_position

/-- Membership in the `self._operators` dispatch dict. -/
def is_operator (c : Char) : Bool :=
  c == '>' || c == '<' || c == '+' || c == '-' ||
  c == '.' || c == ',' || c == '[' || c == ']'

/-- `self._operators[command]()`: dispatch one recognized operator. -/
def dispatch (c : Char) (s : BrainfuckInterpreter) :
    Option BrainfuckInterpreter :=
  if c = '>' then some s.increment_pointer
  else if c = '<' then some s.decrement_pointer
  else if c = '+' then some s.increment
  else if c = '-' then some s.decrement
  else if c = '.' then s.output_op
  else if c = ',' then some s.input_op
  else if c = '[' then some s.loop_begin
  else some s.loop_end

/-- `single_step`: no-op at end; skip unrecognized characters; otherwise
dispatch the operator and unconditionally advance the cursor by one. -/
def single_step (s : BrainfuckInterpreter) : Option BrainfuckInterpreter :=
  if s.is_end then some s
  else
    let command := s.commands.getD s.commands_position ' '
    if ¬ is_operator command then
      some { s with commands_position := s.commands_position + 1 }
    else match dispatch command s with
      | none => none
      | some s1 => some { s1 with commands_position := s1.commands_position + 1 }

/-- `execute`: `while not is_end(): single_step()`, with explicit fuel
bounding the number of iterations; `none` when the fuel runs out or a step
raises. -/
def execute (fuel : Nat) (s : BrainfuckInterpreter) :
    Option BrainfuckInterpreter :=
  match fuel with
  | 0 => if s.is_end then some s else none
  | fuel + 1 =>
    if s.is_end then some s
    else match single_step s with
      | none => none
      | some s1 => execute fuel s1

/-- `set_command`: replace the command list and reset stack, stack pointer
and cursor; the streams are not touched. -/
def set_command (s : BrainfuckInterpreter) (commands : String) :
    BrainfuckInterpreter :=
  { s with commands := commands.toList, commands_position := 0,
           stack := ⟨[]⟩, stack_position := 0 }

/-- The `c_commands` dict of `to_c`. -/
def c_command (c : Char) : Option String :=
  if c = '+' then some "++cells[pos];"
  else if c = '-' then some "--cells[pos];"
  else if c = '>' then some "pos++;"
  else if c = '<' then some "pos--;"
  else if c = '.' then some "putchar(cells[pos]);"
  else if c = ',' then some "cells[pos] = getchar();"
  else if c = '[' then some "while(cells[pos] != 0) \x7b"
  else if c = ']' then some "\x7d"
  else none

/-- `to_c`: converts the brainfuck commands to C source text. Characters
missing from either the `self._operators` dict or the `c_commands` dict
are skipped. -/
def to_c (s : BrainfuckInterpreter) : String :=
  let header :=
    "#include <stdio.h>\nint main() \x7b\nint pos = 0;\nchar cells[3000];\n"
  let body := s.commands.foldl (fun src command =>
    if ¬ is_operator command then src
    else match c_command command with
      | none => src
      | some stmt => src ++ stmt ++ "\n") header
  body ++ "return 0; \x7d"

end BrainfuckInterpreter

open BrainfuckInterpreter

/-- Spec-side characterization of the lowering backend, written from the
spec sentence "one operator → one fixed statement or brace, concatenated
in sequence order": per-command emitted text (statement plus newline, or
nothing for skipped characters) concatenated structurally. -/
def emit_all : List Char → String
  | [] => ""
  | c :: rest =>
    (match BrainfuckInterpreter.c_command c with
      | none => ""
      | some stmt => stmt ++ "\n") ++ emit_all rest

/-! Helper lemmas about the dictionary model. -/

theorem dict_lookup_set_self (d : List (Int × Int)) (i v : Int) :
    dict_lookup (dict_set d i v) i = some v := by
  induction d with
  | nil => simp [dict_set, dict_lookup]
  | cons p rest ih =>
    obtain ⟨k, w⟩ := p
    by_cases h : k = i
    · simp [dict_set, dict_lookup, h]
    · simp [dict_set, dict_lookup, h, ih]

theorem dict_set_length_absent (d : List (Int × Int)) (i v : Int)
    (h : dict_lookup d i = none) :
    (dict_set d i v).length = d.length + 1 := by
  induction d with
  | nil => simp [dict_set]
  | cons p rest ih =>
    obtain ⟨k, w⟩ := p
    by_cases hk : k = i
    · simp [dict_lookup, hk] at h
    · simp only [dict_lookup, hk, if_false] at h
      simp [dict_set, hk, ih h]

theorem getitem_fst (s : BrainfuckStack) (i : Int) :
    (s.getitem i).1 = (dict_lookup s.dict i).getD 0 := by
  cases h : dict_lookup s.dict i <;>
    simp [BrainfuckStack.getitem, BrainfuckStack.has_key, h]

theorem getitem_snd_lookup (s : BrainfuckStack) (i : Int) :
    dict_lookup ((s.getitem i).2).dict i =
      some ((dict_lookup s.dict i).getD 0) := by
  cases h : dict_lookup s.dict i <;>
    simp [BrainfuckStack.getitem, BrainfuckStack.has_key, h,
      dict_lookup_set_self]

theorem cell_value_set (st : BrainfuckStack) (p v : Int) :
    ((st.setitem p v).getitem p).1 = v := by
  rw [getitem_fst]
  simp [BrainfuckStack.setitem, dict_lookup_set_self]


/-- C1: at a `[` whose current cell is 0 and whose forward balanced scan
accepts the `]` at index M, `single_step` leaves the cursor at M + 2: the
dispatch sets the cursor to M + 1 and the unconditional post-dispatch
increment adds 1, so the instruction at index M + 1 is skipped by the
jump. -/
theorem loop_begin_jump_skips_instruction_after_match
    (s : BrainfuckInterpreter) (M : Nat)
    (hlt : s.commands_position < s.commands.length)
    (hcmd : s.commands.getD s.commands_position ' ' = '[')
    (hcell : (s.stack.getitem s.stack_position).1 = 0)
    (hscan : loop_begin_scan s.commands
        (s.commands.length - (s.commands_position + 1))
        (s.commands_position + 1) 0 = some M) :
    ∃ s1, single_step s = some s1 ∧ s1.commands_position = M + 2 := by
  have hend : s.is_end = false := by
    simp [is_end]
    omega
  have hstep : single_step s = some { s with
      stack := (s.stack.getitem s.stack_position).2,
      commands_position := M + 1 + 1 } := by
    simp only [single_step, hend, Bool.false_eq_true, if_false, hcmd]
    simp only [dispatch, loop_begin, hcell, hscan, is_operator]
    simp
  exact ⟨_, hstep, rfl⟩

/-- Witness for C1 on the program `[]` with a fresh (zero) cell: the match
is at index 1 and the cursor ends at 3. -/
theorem loop_begin_jump_skips_instruction_after_match_witness :
    ∃ s1, single_step (mkInterpreter "[]") = some s1 ∧
      s1.commands_position = 1 + 2 :=
  loop_begin_jump_skips_instruction_after_match (mkInterpreter "[]") 1
    (by decide) (by decide) (by decide) (by decide)

/-- The backward scan of `_loop_end` only ever accepts an index ≥ 1. -/
theorem loop_end_scan_ge_one (commands : List Char) :
    ∀ j found B, loop_end_scan commands j found = some B → 1 ≤ B := by
  intro j
  induction j with
  | zero =>
    intro found B h
    simp [loop_end_scan] at h
  | succ j ih =>
    intro found B h
    simp only [loop_end_scan] at h
    split_ifs at h with h1 h2 h3
    · simp at h
      omega
    · exact ih _ _ h
    · exact ih _ _ h
    · exact ih _ _ h

/-- The backward scan of `_loop_end` never inspects index 0: its result
only depends on the characters at indices ≥ 1. -/
theorem loop_end_scan_congr (l commands : List Char)
    (hagree : ∀ i, 1 ≤ i → l.getD i ' ' = commands.getD i ' ') :
    ∀ j found, loop_end_scan l j found = loop_end_scan commands j found := by
  intro j
  induction j with
  | zero =>
    intro found
    rfl
  | succ j ih =>
    intro found
    simp only [loop_end_scan]
    rw [hagree (j + 1) (by omega)]
    split_ifs <;> simp [ih]

/-- C2: at a `]` whose current cell is nonzero, the backward balanced scan
runs over indices cursor - 1 down to 1 only: a successful match B (always
at least 1) makes the next executed instruction B + 1, an exhausted scan
leaves the cursor to be advanced by 1 (fallthrough); the scan result never
depends on the character at index 0. -/
theorem loop_end_backward_jump_behavior (s : BrainfuckInterpreter)
    (hlt : s.commands_position < s.commands.length)
    (hcmd : s.commands.getD s.commands_position ' ' = ']')
    (hcell : (s.stack.getitem s.stack_position).1 ≠ 0) :
    (∃ s1, single_step s = some s1 ∧
      s1.commands_position =
        (match loop_end_scan s.commands (s.commands_position - 1) 0 with
          | some B => B + 1
          | none => s.commands_position + 1)) ∧
    (∀ B, loop_end_scan s.commands (s.commands_position - 1) 0 = some B →
      1 ≤ B) ∧
    (∀ l, (∀ i, 1 ≤ i → l.getD i ' ' = s.commands.getD i ' ') →
      loop_end_scan l (s.commands_position - 1) 0 =
        loop_end_scan s.commands (s.commands_position - 1) 0) := by
  have hend : s.is_end = false := by
    simp [is_end]
    omega
  refine ⟨?_, fun B h => loop_end_scan_ge_one _ _ _ _ h,
    fun l h => loop_end_scan_congr l s.commands h _ _⟩
  cases hscan : loop_end_scan s.commands (s.commands_position - 1) 0 with
  | some B =>
    have hstep : single_step s = some { s with
        stack := (s.stack.getitem s.stack_position).2,
        commands_position := B + 1 } := by
      simp only [single_step, hend, Bool.false_eq_true, if_false, hcmd]
      simp only [dispatch, loop_end, hcell, hscan, is_operator]
      simp
    exact ⟨_, hstep, by simp⟩
  | none =>
    have hstep : single_step s = some { s with
        stack := (s.stack.getitem s.stack_position).2,
        commands_position := s.commands_position + 1 } := by
      simp only [single_step, hend, Bool.false_eq_true, if_false, hcmd]
      simp only [dispatch, loop_end, hcell, hscan, is_operator]
      simp
    exact ⟨_, hstep, by simp⟩

/-- Witness for C2 on `+[-]` at the `]` with the cell equal to 1: the
backward scan matches the `[` at index 1 and the next executed
instruction is index 2. -/
theorem loop_end_backward_jump_behavior_witness :
    ∃ s1, single_step { mkInterpreter "+[-]" with
        commands_position := 3, stack := ⟨[(0, 1)]⟩ } = some s1 ∧
      s1.commands_position = 2 :=
  (loop_end_backward_jump_behavior _ (by decide) (by decide) (by decide)).1

/-- Counterexample to C3: on the program `[+` with a fresh (zero) cell the
unmatched `[` does NOT run the loop to the end of the sequence: after the
`[` the cursor is at 1 (not off the end, `is_end` is false), and the next
step executes the body instruction `+`, leaving cell 0 equal to 1. -/
theorem loop_begin_unmatched_runs_body_cex :
    ((single_step (mkInterpreter "[+")).bind single_step).map
        (fun s1 => (s1.commands_position, (s1.stack.getitem 0).1)) =
      some (2, 1) ∧
    (single_step (mkInterpreter "[+")).map is_end = some false := by
  constructor <;> rfl

/-- C3 (amended): at a `[` whose current cell is 0 and whose forward scan
finds no matching `]`, the scan leaves the cursor unchanged and the
post-dispatch increment advances it by exactly 1, falling through into the
unclosed loop body; the engine is finished right after the `[` only when
the `[` was the last instruction. -/
theorem loop_begin_unmatched_falls_through (s : BrainfuckInterpreter)
    (hlt : s.commands_position < s.commands.length)
    (hcmd : s.commands.getD s.commands_position ' ' = '[')
    (hcell : (s.stack.getitem s.stack_position).1 = 0)
    (hscan : loop_begin_scan s.commands
        (s.commands.length - (s.commands_position + 1))
        (s.commands_position + 1) 0 = none) :
    ∃ s1, single_step s = some s1 ∧
      s1.commands_position = s.commands_position + 1 ∧
      s1.commands = s.commands ∧
      (s1.is_end = true ↔ s.commands.length ≤ s.commands_position + 1) := by
  have hend : s.is_end = false := by
    simp [is_end]
    omega
  have hstep : single_step s = some { s with
      stack := (s.stack.getitem s.stack_position).2,
      commands_position := s.commands_position + 1 } := by
    simp only [single_step, hend, Bool.false_eq_true, if_false, hcmd]
    simp only [dispatch, loop_begin, hcell, hscan, is_operator]
    simp
  exact ⟨_, hstep, rfl, rfl, by simp [is_end]⟩

/-- Witness for the amended C3 on the program `[` alone: the cursor moves
to 1 and the engine is finished (the spec's `[`-terminates test case). -/
theorem loop_begin_unmatched_falls_through_witness :
    ∃ s1, single_step (mkInterpreter "[") = some s1 ∧
      s1.commands_position = 0 + 1 ∧
      s1.commands = (mkInterpreter "[").commands ∧
      (s1.is_end = true ↔ (mkInterpreter "[").commands.length ≤ 0 + 1) :=
  loop_begin_unmatched_falls_through (mkInterpreter "[")
    (by decide) (by decide) (by decide) (by decide)

/-- Counterexample to C4: the engine can raise. On the program `-.` the
first step sets the cell to -1 and the second step faults (Python 2
`chr(-1)` raises ValueError), modelled as `none`. -/
theorem single_step_output_fault_cex :
    (single_step (mkInterpreter "-.")).bind single_step = none ∧
    (single_step (mkInterpreter "-.")).isSome = true := by
  constructor <;> rfl

/-- Every dispatch other than `.` produces a state (no exception). -/
theorem dispatch_isSome (c : Char) (s : BrainfuckInterpreter) (h : c ≠ '.') :
    (dispatch c s).isSome = true := by
  unfold dispatch
  split_ifs <;> simp_all

/-- `single_step` produces a state whenever the command at the cursor is
not a `.` with an out-of-range cell value. -/
theorem single_step_isSome (s : BrainfuckInterpreter)
    (h : s.commands.getD s.commands_position ' ' = '.' →
      0 ≤ (s.stack.getitem s.stack_position).1 ∧
      (s.stack.getitem s.stack_position).1 < 256) :
    (single_step s).isSome = true := by
  simp only [single_step]
  split_ifs with h1 h2
  · rfl
  · cases hd : dispatch (s.commands.getD s.commands_position ' ') s with
    | some s1 => simp [hd]
    | none =>
      by_cases hc : s.commands.getD s.commands_position ' ' = '.'
      · rw [hc] at hd
        simp only [dispatch, reduceIte] at hd
        simp only [output_op] at hd
        rw [if_pos (h hc)] at hd
        exact Option.noConfusion hd
      · have hsome := dispatch_isSome _ s hc
        rw [hd] at hsome
        simp at hsome
  · rfl

/-- C4 (amended): `single_step` raises exactly when the cursor is on a `.`
whose current cell value lies outside [0, 256) (Python 2 `chr` range);
in every other situation — unrecognized characters, unmatched brackets,
exhausted input — it completes without a fault. -/
theorem single_step_none_iff_output_out_of_range (s : BrainfuckInterpreter) :
    single_step s = none ↔
      (s.is_end = false ∧
       s.commands.getD s.commands_position ' ' = '.' ∧
       ((s.stack.getitem s.stack_position).1 < 0 ∨
        256 ≤ (s.stack.getitem s.stack_position).1)) := by
  constructor
  · intro h
    have hnot : ¬ ((single_step s).isSome = true) := by simp [h]
    have hend : s.is_end = false := by
      cases hend : s.is_end with
      | false => rfl
      | true => simp [single_step, hend] at h
    by_cases hdot : s.commands.getD s.commands_position ' ' = '.'
    · by_cases hrange : 0 ≤ (s.stack.getitem s.stack_position).1 ∧
          (s.stack.getitem s.stack_position).1 < 256
      · exact absurd (single_step_isSome s (fun _ => hrange)) hnot
      · exact ⟨hend, hdot, by omega⟩
    · exact absurd (single_step_isSome s (fun hc => absurd hc hdot)) hnot
  · rintro ⟨hend, hdot, hrange⟩
    have hcond : ¬ (0 ≤ (s.stack.getitem s.stack_position).1 ∧
        (s.stack.getitem s.stack_position).1 < 256) := by omega
    simp only [single_step, hend, Bool.false_eq_true, if_false, hdot]
    simp only [dispatch, output_op, is_operator]
    simp [hcond]

/-- Witness for the amended C4: a `.` over a cell holding -1 faults. -/
theorem single_step_none_iff_output_out_of_range_witness :
    single_step { mkInterpreter "-." with
        stack := ⟨[(0, -1)]⟩, commands_position := 1 } = none :=
  (single_step_none_iff_output_out_of_range _).mpr (by decide)

/-- C5: reading a never-written index through `__getitem__` returns 0 and
materializes the index at value 0 (observable through `get_list`, whose
count grows by one); reading an index right after writing v returns v. -/
theorem stack_get_materializes_and_returns_last_write
    (s : BrainfuckStack) (i v : Int) :
    (s.has_key i = false →
      (s.getitem i).1 = 0 ∧
      ((s.getitem i).2).has_key i = true ∧
      dict_lookup ((s.getitem i).2).dict i = some 0 ∧
      ((s.getitem i).2).get_list.length = s.get_list.length + 1) ∧
    (((s.setitem i v).getitem i).1 = v) := by
  constructor
  · intro h
    have hl : dict_lookup s.dict i = none := by
      simpa [BrainfuckStack.has_key] using h
    refine ⟨?_, ?_, ?_, ?_⟩
    · rw [getitem_fst, hl]
      rfl
    · simp [BrainfuckStack.has_key, getitem_snd_lookup]
    · rw [getitem_snd_lookup, hl]
      rfl
    · simp [BrainfuckStack.getitem, BrainfuckStack.has_key, hl,
        BrainfuckStack.get_list, dict_set_length_absent _ _ _ hl]
  · exact cell_value_set s i v

/-- Witness for C5 on the empty tape at index 0 with write value 5. -/
theorem stack_get_materializes_and_returns_last_write_witness :
    ((⟨[]⟩ : BrainfuckStack).getitem 0).1 = 0 ∧
    ((⟨[]⟩ : BrainfuckStack).getitem 0).2.has_key 0 = true ∧
    dict_lookup ((⟨[]⟩ : BrainfuckStack).getitem 0).2.dict 0 = some 0 ∧
    ((⟨[]⟩ : BrainfuckStack).getitem 0).2.get_list.length =
      (⟨[]⟩ : BrainfuckStack).get_list.length + 1 ∧
    (((⟨[]⟩ : BrainfuckStack).setitem 0 5).getitem 0).1 = 5 := by
  have h := stack_get_materializes_and_returns_last_write ⟨[]⟩ 0 5
  have h1 := h.1 (by decide)
  exact ⟨h1.1, h1.2.1, h1.2.2.1, h1.2.2.2, h.2⟩

/-- C6: executing `,` with a configured input stream reads one unit: if
the stream yields one character the cell becomes its code point, if the
stream is exhausted the cell becomes 0 — regardless of the cell's
previous value (the result holds for every prior stack). -/
theorem input_reads_one_unit_or_zero (s : BrainfuckInterpreter)
    (l : List Char)
    (hstream : s.stream_input = some l)
    (hlt : s.commands_position < s.commands.length)
    (hcmd : s.commands.getD s.commands_position ' ' = ',') :
    ∃ s1, single_step s = some s1 ∧
      dict_lookup s1.stack.dict s.stack_position =
        some (match l with | [] => (0 : Int) | c :: _ => (c.toNat : Int)) ∧
      s1.stream_input = some (l.drop 1) := by
  have hend : s.is_end = false := by
    simp [is_end]
    omega
  cases l with
  | nil =>
    have hstep : single_step s = some { s with
        stream_input := some ([] : List Char),
        stack := s.stack.setitem s.stack_position 0,
        commands_position := s.commands_position + 1 } := by
      simp only [single_step, hend, Bool.false_eq_true, if_false, hcmd]
      simp only [dispatch, input_op, hstream, is_operator]
      simp
    refine ⟨_, hstep, ?_, rfl⟩
    simp [BrainfuckStack.setitem, dict_lookup_set_self]
  | cons c rest =>
    have hstep : single_step s = some { s with
        stream_input := some rest,
        stack := s.stack.setitem s.stack_position (c.toNat : Int),
        commands_position := s.commands_position + 1 } := by
      simp only [single_step, hend, Bool.false_eq_true, if_false, hcmd]
      simp only [dispatch, input_op, hstream, is_operator]
      simp
    refine ⟨_, hstep, ?_, rfl⟩
    simp [BrainfuckStack.setitem, dict_lookup_set_self]

/-- Witness for C6 on `,` with the one-character stream "A": the cell
becomes 65 and the stream is left empty. -/
theorem input_reads_one_unit_or_zero_witness :
    ∃ s1, single_step { mkInterpreter "," with
        stream_input := some ['A'] } = some s1 ∧
      dict_lookup s1.stack.dict 0 = some 65 ∧
      s1.stream_input = some [] :=
  input_reads_one_unit_or_zero _ ['A'] rfl (by decide) (by decide)

/-- The `c_commands` dict of `to_c` has an entry exactly for the commands
in the `_operators` dispatch dict, so `to_c` skips characters exactly as
`single_step` does. -/
theorem c_command_isSome (c : Char) :
    (BrainfuckInterpreter.c_command c).isSome = is_operator c := by
  simp only [BrainfuckInterpreter.c_command]
  split_ifs <;> simp [is_operator, *]

/-- The `to_c` accumulation loop appends exactly the structural
concatenation `emit_all` of the per-command statements. -/
theorem to_c_foldl_shape (commands : List Char) : ∀ init : String,
    commands.foldl (fun src command =>
      if ¬ is_operator command then src
      else match BrainfuckInterpreter.c_command command with
        | none => src
        | some stmt => src ++ stmt ++ "\n") init
      = init ++ emit_all commands := by
  induction commands with
  | nil =>
    intro init
    simp [emit_all]
  | cons c rest ih =>
    intro init
    rw [List.foldl_cons]
    cases hc : BrainfuckInterpreter.c_command c with
    | none =>
      have hop : is_operator c = false := by
        rw [← c_command_isSome, hc]
        rfl
      simp only [hop, Bool.false_eq_true, not_false_iff, if_true, ih,
        emit_all, hc]
      rw [String.empty_append]
    | some stmt =>
      have hop : is_operator c = true := by
        rw [← c_command_isSome, hc]
        rfl
      simp only [hop, not_true, Bool.true_eq_false, if_false, ih,
        emit_all, hc]
      simp only [String.append_assoc]

/-- C7: `to_c` is a pure function of the command list alone (two states
with the same commands lower to byte-identical text); its output is the
fixed boilerplate (stdio header, main entry point, 3000-cell buffer,
pointer initialized to 0, return statement) around one fixed statement or
brace per recognized operator concatenated in sequence order; and the
skip set agrees exactly with the dispatch of `single_step`. -/
theorem to_c_deterministic_and_shaped (s t : BrainfuckInterpreter)
    (hcmds : s.commands = t.commands) :
    to_c s = to_c t ∧
    to_c s =
      "#include <stdio.h>\nint main() \x7b\nint pos = 0;\nchar cells[3000];\n"
        ++ emit_all s.commands ++ "return 0; \x7d" ∧
    (∀ c, (BrainfuckInterpreter.c_command c).isSome = is_operator c) := by
  have hshape : ∀ u : BrainfuckInterpreter, to_c u =
      "#include <stdio.h>\nint main() \x7b\nint pos = 0;\nchar cells[3000];\n"
        ++ emit_all u.commands ++ "return 0; \x7d" := by
    intro u
    simp only [to_c]
    rw [to_c_foldl_shape]
  refine ⟨?_, hshape s, fun c => c_command_isSome c⟩
  rw [hshape s, hshape t, hcmds]

/-- Witness for C7: two interpreters over `+` that differ in tape pointer
lower identically, to the boilerplate around one increment statement. -/
theorem to_c_deterministic_and_shaped_witness :
    to_c (mkInterpreter "+") =
        to_c { mkInterpreter "+" with stack_position := 7 } ∧
    to_c (mkInterpreter "+") =
      "#include <stdio.h>\nint main() \x7b\nint pos = 0;\nchar cells[3000];\n"
        ++ emit_all (mkInterpreter "+").commands ++ "return 0; \x7d" :=
  ⟨(to_c_deterministic_and_shaped _ _ rfl).1,
   (to_c_deterministic_and_shaped (mkInterpreter "+")
      { mkInterpreter "+" with stack_position := 7 } rfl).2.1⟩

/-- C8: `set_command` replaces the command list and resets the tape (to
empty, no materialized cells), the tape pointer and the cursor to 0,
while the input stream, the output stream and the terminal input are left
unchanged. -/
theorem set_command_resets_and_keeps_streams (s : BrainfuckInterpreter)
    (commands : String) :
    (s.set_command commands).commands = commands.toList ∧
    (s.set_command commands).commands_position = 0 ∧
    (s.set_command commands).stack.dict = [] ∧
    (s.set_command commands).stack_position = 0 ∧
    (s.set_command commands).stream_input = s.stream_input ∧
    (s.set_command commands).stream_output = s.stream_output ∧
    (s.set_command commands).stdin = s.stdin :=
  ⟨rfl, rfl, rfl, rfl, rfl, rfl, rfl⟩

/-- C9: `+` then `-` (or `-` then `+`) at the same tape pointer leaves
the value of the current cell unchanged, for every tape state. -/
theorem increment_decrement_cell_inverse (s : BrainfuckInterpreter) :
    ((s.increment.decrement).stack.getitem s.stack_position).1 =
      (s.stack.getitem s.stack_position).1 ∧
    ((s.decrement.increment).stack.getitem s.stack_position).1 =
      (s.stack.getitem s.stack_position).1 := by
  have hdec : ∀ t : BrainfuckInterpreter,
      (t.decrement.stack.getitem t.stack_position).1 =
        (t.stack.getitem t.stack_position).1 - 1 := by
    intro t
    simp only [decrement]
    exact cell_value_set _ _ _
  have hinc : ∀ t : BrainfuckInterpreter,
      (t.increment.stack.getitem t.stack_position).1 =
        (t.stack.getitem t.stack_position).1 + 1 := by
    intro t
    simp only [increment]
    exact cell_value_set _ _ _
  constructor
  · have h1 := hdec s.increment
    have h2 := hinc s
    rw [show s.increment.stack_position = s.stack_position from rfl] at h1
    rw [h1, h2]
    omega
  · have h1 := hinc s.decrement
    have h2 := hdec s
    rw [show s.decrement.stack_position = s.stack_position from rfl] at h1
    rw [h1, h2]
    omega

/-- C10: executing `.`, `[` or `]` at a cell with no storage entry
materializes it: afterwards the entry exists with value 0 and the count
of materialized cells (`get_list`) grows by one, even though these
operators only read the cell. -/
theorem read_ops_materialize_cell (s : BrainfuckInterpreter)
    (hlt : s.commands_position < s.commands.length)
    (hcmd : s.commands.getD s.commands_position ' ' = '.' ∨
            s.commands.getD s.commands_position ' ' = '[' ∨
            s.commands.getD s.commands_position ' ' = ']')
    (habsent : s.stack.has_key s.stack_position = false) :
    ∃ s1, single_step s = some s1 ∧
      dict_lookup s1.stack.dict s.stack_position = some 0 ∧
      s1.stack.get_list.length = s.stack.get_list.length + 1 := by
  have hend : s.is_end = false := by
    simp [is_end]
    omega
  have hl : dict_lookup s.stack.dict s.stack_position = none := by
    simpa [BrainfuckStack.has_key] using habsent
  have hget : s.stack.getitem s.stack_position =
      (0, ⟨dict_set s.stack.dict s.stack_position 0⟩) := by
    simp [BrainfuckStack.getitem, BrainfuckStack.has_key, hl]
  have hcell0 : (s.stack.getitem s.stack_position).1 = 0 := by
    rw [hget]
  have hlook : dict_lookup ((s.stack.getitem s.stack_position).2).dict
      s.stack_position = some 0 := by
    rw [hget]
    exact dict_lookup_set_self _ _ _
  have hlen : ((s.stack.getitem s.stack_position).2).dict.length =
      s.stack.dict.length + 1 := by
    rw [hget]
    exact dict_set_length_absent _ _ _ hl
  rcases hcmd with hdot | hlb | hrb
  · have hstep : single_step s = some { s with
        stack := (s.stack.getitem s.stack_position).2,
        stream_output := s.stream_output ++
          [Char.ofNat ((s.stack.getitem s.stack_position).1).toNat],
        commands_position := s.commands_position + 1 } := by
      simp only [single_step, hend, Bool.false_eq_true, if_false, hdot]
      simp only [dispatch, output_op, is_operator, hcell0]
      simp
    exact ⟨_, hstep, hlook, by simp [BrainfuckStack.get_list, hlen]⟩
  · cases hscan : loop_begin_scan s.commands
        (s.commands.length - (s.commands_position + 1))
        (s.commands_position + 1) 0 with
    | some M =>
      have hstep : single_step s = some { s with
          stack := (s.stack.getitem s.stack_position).2,
          commands_position := M + 1 + 1 } := by
        simp only [single_step, hend, Bool.false_eq_true, if_false, hlb]
        simp only [dispatch, loop_begin, hcell0, hscan, is_operator]
        simp
      exact ⟨_, hstep, hlook, by simp [BrainfuckStack.get_list, hlen]⟩
    | none =>
      have hstep : single_step s = some { s with
          stack := (s.stack.getitem s.stack_position).2,
          commands_position := s.commands_position + 1 } := by
        simp only [single_step, hend, Bool.false_eq_true, if_false, hlb]
        simp only [dispatch, loop_begin, hcell0, hscan, is_operator]
        simp
      exact ⟨_, hstep, hlook, by simp [BrainfuckStack.get_list, hlen]⟩
  · have hstep : single_step s = some { s with
        stack := (s.stack.getitem s.stack_position).2,
        commands_position := s.commands_position + 1 } := by
      simp only [single_step, hend, Bool.false_eq_true, if_false, hrb]
      simp only [dispatch, loop_end, hcell0, is_operator]
      simp
    exact ⟨_, hstep, hlook, by simp [BrainfuckStack.get_list, hlen]⟩

/-- Witness for C10 on the program `]` over an empty tape: the fall-through
step materializes cell 0 at value 0. -/
theorem read_ops_materialize_cell_witness :
    ∃ s1, single_step (mkInterpreter "]") = some s1 ∧
      dict_lookup s1.stack.dict 0 = some 0 ∧
      s1.stack.get_list.length =
        (mkInterpreter "]").stack.get_list.length + 1 :=
  read_ops_materialize_cell (mkInterpreter "]")
    (by decide) (by decide) (by decide)
